import Mathlib

/-!
# Verification of the ProVEAN attack-graph core

A shallow embedding of the Python core of the ProVEAN repository
(`progag/` and `server/`), together with theorems settling the claims
about it.  Python floats are modelled as rationals (`ℚ`), Python sets
as lists with explicit deduplication, and calls to the process-local
RNG (`random.choice`, `random.random`, `random.sample`) are modelled
by explicit choice oracles: an oracle supplies the index of the element
the RNG would have picked, so every random draw in the source becomes a
parameter of the embedded function.  `random.choice` on an empty list
raises `IndexError`; fallible functions therefore return `Except`.
-/

namespace ProVEAN

/-! ## Privileges (`progag/vulnerabilities.py`)

The source represents privileges as the integer literals
`PRIV_GUEST = 0`, `PRIV_USER = 1`, `PRIV_ROOT = 2` (the type
`Privilege = Literal[0, 1, 2]`).  We embed them as a three-element
inductive ordered through its numeric value. -/

inductive Privilege where
  | guest
  | user
  | root
deriving DecidableEq, Repr

namespace Privilege

def toNat : Privilege → Nat
  | .guest => 0
  | .user => 1
  | .root => 2

instance : LE Privilege := ⟨fun a b => a.toNat ≤ b.toNat⟩
instance : LT Privilege := ⟨fun a b => a.toNat < b.toNat⟩

instance (a b : Privilege) : Decidable (a ≤ b) :=
  inferInstanceAs (Decidable (a.toNat ≤ b.toNat))
instance (a b : Privilege) : Decidable (a < b) :=
  inferInstanceAs (Decidable (a.toNat < b.toNat))

theorem le_root (a : Privilege) : a ≤ root := by
  cases a <;> decide

end Privilege

/-- `PRIVILEGE_STR = ["guest", "user", "root"]`, indexed by the privilege. -/
def PRIVILEGE_STR : Privilege → String
  | .guest => "guest"
  | .user => "user"
  | .root => "root"

/-! ## Vulnerabilities (`progag/vulnerabilities.py`) -/

/-- The ten-field feature vector `SteeringBaseFeatures`.  The three
score fields are Python floats, embedded as rationals; the remaining
seven are small integers produced by the `CAT2NUM` map. -/
structure SteeringBaseFeatures where
  base_score : ℚ
  impact_score : ℚ
  exploitability_score : ℚ
  access_vector : Nat
  access_complexity : Nat
  authentication : Nat
  confidentiality_impact : Nat
  integrity_impact : Nat
  availability_impact : Nat
  base_severity : Nat
deriving DecidableEq, Repr

/-- `SteeringBaseFeatures.default()`: the sentinel used when a CVE has
neither a v2 nor a v3 metric. -/
def SteeringBaseFeatures.default : SteeringBaseFeatures :=
  ⟨5, 5, 5, 0, 0, 0, 0, 0, 0, 0⟩

/-- A vulnerability (class `Vulnerability`): its CVE id, the parsed
base features and the two privileges estimated by `_get_privileges`. -/
structure Vulnerability where
  cve_id : String
  base_features : SteeringBaseFeatures
  priv_required : Privilege
  priv_gained : Privilege
deriving DecidableEq, Repr

namespace Vulnerability

/-- Property `impact`: `base_features.impact_score`. -/
def impact (v : Vulnerability) : ℚ := v.base_features.impact_score

/-- Property `likelihood`: `base_features.exploitability_score`. -/
def likelihood (v : Vulnerability) : ℚ := v.base_features.exploitability_score

/-- Property `score`: `base_features.base_score`. -/
def score (v : Vulnerability) : ℚ := v.base_features.base_score

end Vulnerability

/-! ## The attack graph model (`progag/model.py`) -/

/-- A network host (`NetworkHost`).  The plot coordinates `x`, `y` are
embedded as rationals. -/
structure NetworkHost where
  id : Nat
  hostname : String
  ipv4 : String
  cves : List String
  services : List (String × List String)
  domain : Nat := 0
  x : ℚ := 0
  y : ℚ := 0
deriving Repr

/-- The attack graph model (`AttackGraphModel`): a directed graph over
host ids plus the vulnerability pool.  The `hosts` dictionary and the
pool (`vulnerabilties`, keeping the source's spelling) are embedded as
association lists keyed by host id / CVE id. -/
structure AttackGraphModel where
  hosts : List (Nat × NetworkHost)
  edges : List (Nat × Nat)
  vulnerabilties : List (String × Vulnerability)
deriving Repr

namespace AttackGraphModel

/-- Dictionary access `self.hosts[host_id]`.  Claims are only ever
instantiated at host ids present in the model, so the Python
`KeyError` on a missing id is not modelled: lookup misses fall back to
a junk host. -/
def findHost (m : AttackGraphModel) (host_id : Nat) : NetworkHost :=
  match (m.hosts.find? (fun p => p.1 = host_id)) with
  | some p => p.2
  | none => ⟨host_id, "", "", [], [], 0, 0, 0⟩

/-- Dictionary access `self.vulnerabilties[cve]`; as for hosts, misses
fall back to a junk vulnerability (the code only looks up CVE ids that
are in the pool, which `add_host` enforces at load time). -/
def findVuln (m : AttackGraphModel) (cve : String) : Vulnerability :=
  match (m.vulnerabilties.find? (fun p => p.1 = cve)) with
  | some p => p.2
  | none => ⟨cve, SteeringBaseFeatures.default, .guest, .guest⟩

/-- `nx.DiGraph.neighbors` = successors of a node. -/
def successors (m : AttackGraphModel) (host : Nat) : List Nat :=
  (m.edges.filter (fun e => e.1 = host)).map (fun e => e.2)

/-- `nx.DiGraph.predecessors` of a node. -/
def predecessors (m : AttackGraphModel) (host : Nat) : List Nat :=
  (m.edges.filter (fun e => e.2 = host)).map (fun e => e.1)

end AttackGraphModel

/-! ## Random choice

`random.choice(lst)` raises `IndexError` on an empty list and otherwise
returns an element of the list.  The oracle argument `pick` stands for
the RNG draw; the drawn index is `pick % lst.length`. -/

inductive SampleErr where
  | indexError
deriving DecidableEq, Repr

/-- `random.choice`, driven by the oracle `pick`. -/
def randomChoice (pick : Nat) : List α → Except SampleErr α
  | [] => .error .indexError
  | x :: xs => .ok ((x :: xs).getD (pick % (xs.length + 1)) x)

/-! ## CVE sampling on a host (`AttackGraphModel.sample_cve_on_host`)

The Python method recurses at most once: when `preferred_cves` is given
and either the preference filter or the privilege filter comes up
empty, it retries the very same call without the preference.  We embed
the `preferred_cves is None` body as `sampleCveOnHostNoPref` and the
full method as `sampleCveOnHost`; the retry is the inlined recursive
call.  `pick` drives the `random.choice` of the first attempt and
`pickRetry` the one of the retry. -/

/-- `sample_cve_on_host(host_id, current_priv)` with
`preferred_cves = None`. -/
def AttackGraphModel.sampleCveOnHostNoPref (m : AttackGraphModel) (pick : Nat)
    (host_id : Nat) (current_priv : Privilege) : Except SampleErr (Option String) :=
  let host := m.findHost host_id
  let cves := host.cves
  -- If you have root, you can exploit anything: return any vulnerability
  if current_priv = .root then
    (randomChoice pick cves).map some
  else
    -- Filter the vulnerabilities with a lower or equal requested privilege
    let filtered := cves.filter (fun cve => (m.findVuln cve).priv_required ≤ current_priv)
    if filtered = [] then
      .ok none
    else
      (randomChoice pick filtered).map some

/-- `sample_cve_on_host(host_id, current_priv, preferred_cves)`. -/
def AttackGraphModel.sampleCveOnHost (m : AttackGraphModel) (pick pickRetry : Nat)
    (host_id : Nat) (current_priv : Privilege)
    (preferred_cves : Option (List String)) : Except SampleErr (Option String) :=
  match preferred_cves with
  | none => m.sampleCveOnHostNoPref pick host_id current_priv
  | some preferred =>
    let host := m.findHost host_id
    -- Remove all the non-preferred cves from the list of cves
    let cves := host.cves.filter (fun cve => cve ∈ preferred)
    -- If there are no preferred cves, retry without them
    if cves = [] then
      m.sampleCveOnHostNoPref pickRetry host_id current_priv
    else if current_priv = .root then
      (randomChoice pick cves).map some
    else
      let filtered := cves.filter (fun cve => (m.findVuln cve).priv_required ≤ current_priv)
      -- If after filtering you found nothing, and you were trying to use
      -- preferred CVEs, first try without them
      if filtered = [] then
        m.sampleCveOnHostNoPref pickRetry host_id current_priv
      else
        (randomChoice pick filtered).map some

/-- The `filtered` list computed by the preference-free pass: the CVEs
on the host whose required privilege is at most `current_priv`. -/
def AttackGraphModel.privFiltered (m : AttackGraphModel)
    (host_id : Nat) (current_priv : Privilege) : List String :=
  (m.findHost host_id).cves.filter
    (fun cve => (m.findVuln cve).priv_required ≤ current_priv)

/-! ## SHA-256 (`hashlib.sha256(trace.encode()).hexdigest()`)

An executable SHA-256 over `Nat`-valued bytes, used to embed the path
fingerprint.  Words are naturals reduced mod `2^32`.  All recursions
are structural so that concrete digests reduce in the kernel. -/

namespace SHA256

def M32 : Nat := 4294967296

def rotr (n x : Nat) : Nat := (x >>> n) ||| ((x <<< (32 - n)) % M32)

/-- The 64 round constants of FIPS 180-4, in decimal. -/
def K : List Nat := [
  1116352408, 1899447441, 3049323471, 3921009573, 961987163,
  1508970993, 2453635748, 2870763221, 3624381080, 310598401,
  607225278, 1426881987, 1925078388, 2162078206, 2614888103,
  3248222580, 3835390401, 4022224774, 264347078, 604807628,
  770255983, 1249150122, 1555081692, 1996064986, 2554220882,
  2821834349, 2952996808, 3210313671, 3336571891, 3584528711,
  113926993, 338241895, 666307205, 773529912, 1294757372,
  1396182291, 1695183700, 1986661051, 2177026350, 2456956037,
  2730485921, 2820302411, 3259730800, 3345764771, 3516065817,
  3600352804, 4094571909, 275423344, 430227734, 506948616,
  659060556, 883997877, 958139571, 1322822218, 1537002063,
  1747873779, 1955562222, 2024104815, 2227730452, 2361852424,
  2428436474, 2756734187, 3204031479, 3329325298]

/-- The eight initial hash words of FIPS 180-4, in decimal. -/
def H0 : List Nat := [
  1779033703, 3144134277, 1013904242, 2773480762, 1359893119,
  2600822924, 528734635, 1541459225]

def toBytesBE : Nat → Nat → List Nat
  | 0, _ => []
  | k + 1, n => toBytesBE k (n >>> 8) ++ [n % 256]

def pad (msg : List Nat) : List Nat :=
  let bitLen := msg.length * 8
  let padZeros := (119 - msg.length % 64) % 64
  msg ++ [0x80] ++ List.replicate padZeros 0 ++ toBytesBE 8 bitLen

def bytesToWords : List Nat → List Nat
  | a :: b :: c :: d :: rest => (((a * 256 + b) * 256 + c) * 256 + d) :: bytesToWords rest
  | _ => []

/-- Split into 64-byte chunks; structural recursion on a fuel argument
(instantiated with the list length) so the definition iota-reduces. -/
def chunks64Fuel : Nat → List Nat → List (List Nat)
  | _, [] => []
  | 0, l => [l]
  | fuel + 1, x :: xs => ((x :: xs).take 64) :: chunks64Fuel fuel ((x :: xs).drop 64)

def chunks64 (l : List Nat) : List (List Nat) := chunks64Fuel l.length l

def smallSigma0 (w : Nat) : Nat := rotr 7 w ^^^ rotr 18 w ^^^ (w >>> 3)

def smallSigma1 (w : Nat) : Nat := rotr 17 w ^^^ rotr 19 w ^^^ (w >>> 10)

def buildSchedule : List Nat → Nat → List Nat
  | ws, 0 => ws
  | ws, k + 1 =>
    let n := ws.length
    let w := (smallSigma1 (ws.getD (n - 2) 0) + ws.getD (n - 7) 0 +
              smallSigma0 (ws.getD (n - 15) 0) + ws.getD (n - 16) 0) % M32
    buildSchedule (ws ++ [w]) k

abbrev Regs := Nat × Nat × Nat × Nat × Nat × Nat × Nat × Nat

def round (st : Regs) (kw : Nat × Nat) : Regs :=
  let (a, b, c, d, e, f, g, h) := st
  let S1 := (rotr 6 e ^^^ rotr 11 e) ^^^ rotr 25 e
  let ch := (e &&& f) ^^^ ((e ^^^ (M32 - 1)) &&& g)
  let temp1 := (h + S1 + ch + kw.1 + kw.2) % M32
  let S0 := (rotr 2 a ^^^ rotr 13 a) ^^^ rotr 22 a
  let maj := ((a &&& b) ^^^ (a &&& c)) ^^^ (b &&& c)
  let temp2 := (S0 + maj) % M32
  ((temp1 + temp2) % M32, a, b, c, (d + temp1) % M32, e, f, g)

def compressBlock (H : List Nat) (block : List Nat) : List Nat :=
  let ws := buildSchedule (bytesToWords block) 48
  let init : Regs := (H.getD 0 0, H.getD 1 0, H.getD 2 0, H.getD 3 0,
                      H.getD 4 0, H.getD 5 0, H.getD 6 0, H.getD 7 0)
  let (a, b, c, d, e, f, g, h) := (K.zip ws).foldl round init
  [(H.getD 0 0 + a) % M32, (H.getD 1 0 + b) % M32, (H.getD 2 0 + c) % M32,
   (H.getD 3 0 + d) % M32, (H.getD 4 0 + e) % M32, (H.getD 5 0 + f) % M32,
   (H.getD 6 0 + g) % M32, (H.getD 7 0 + h) % M32]

def sha256 (msg : List Nat) : List Nat :=
  (chunks64 (pad msg)).foldl compressBlock H0

def hexChar (n : Nat) : Char :=
  if n < 10 then Char.ofNat (48 + n) else Char.ofNat (87 + n)

def wordHexChars (w : Nat) : List Char :=
  (List.range 8).map (fun i => hexChar ((w >>> (28 - 4 * i)) % 16))

/-- UTF-8 encoding of a codepoint (`str.encode()`); traces are ASCII. -/
def utf8EncodeCodepoint (c : Nat) : List Nat :=
  if c < 0x80 then [c]
  else if c < 0x800 then [0xC0 ||| (c >>> 6), 0x80 ||| (c &&& 0x3F)]
  else if c < 0x10000 then
    [0xE0 ||| (c >>> 12), 0x80 ||| ((c >>> 6) &&& 0x3F), 0x80 ||| (c &&& 0x3F)]
  else
    [0xF0 ||| (c >>> 18), 0x80 ||| ((c >>> 12) &&& 0x3F),
     0x80 ||| ((c >>> 6) &&& 0x3F), 0x80 ||| (c &&& 0x3F)]

def strBytes (s : String) : List Nat :=
  s.data.flatMap (fun c => utf8EncodeCodepoint c.toNat)

end SHA256

/-- `hashlib.sha256(s.encode()).hexdigest()`. -/
def sha256hex (s : String) : String :=
  String.mk ((SHA256.sha256 (SHA256.strBytes s)).flatMap SHA256.wordHexChars)

/-! ## Attack paths (`progag/attack_paths.py`) -/

/-- `type Edge = tuple[int, int]` from `progag/sampling.py`. -/
abbrev Edge := Nat × Nat

/-- `statistics.mean` over rationals (sum divided by count; the Python
function raises on an empty list, which never occurs at the call
sites — the builder only constructs paths with at least one
vulnerability). -/
def listMean (l : List ℚ) : ℚ := l.sum / l.length

/-- Insert into a sorted list (ascending). -/
def insertSorted (x : ℚ) : List ℚ → List ℚ
  | [] => [x]
  | y :: ys => if x ≤ y then x :: y :: ys else y :: insertSorted x ys

/-- `sorted(...)` ascending, as insertion sort (structural, reduces). -/
def insertionSort : List ℚ → List ℚ
  | [] => []
  | x :: xs => insertSorted x (insertionSort xs)

/-- `statistics.median`: middle element of the sorted list when the
count is odd, the average of the two middle elements when even. -/
def listMedian (l : List ℚ) : ℚ :=
  let s := insertionSort l
  let n := s.length
  if n % 2 = 1 then s.getD (n / 2) 0
  else (s.getD (n / 2 - 1) 0 + s.getD (n / 2) 0) / 2

/-- Junk vulnerability standing for the `IndexError` of `vulns[-1]` on
an empty list; the constructor is only invoked with non-empty `vulns`. -/
def defaultVuln : Vulnerability := ⟨"", SteeringBaseFeatures.default, .guest, .guest⟩

/-- The `AttackPath` record. -/
structure AttackPath where
  trace : String
  length : Nat
  likelihood : ℚ
  impact : ℚ
  score : ℚ
  risk : ℚ
  damage : ℚ
  hash : String
  vulns : List Vulnerability
  edges : List Edge
deriving Repr

/-- `AttackPath.__init__(trace, vulns, edges)`. -/
def AttackPath.make (trace : String) (vulns : List Vulnerability)
    (edges : List Edge) : AttackPath :=
  -- The length is the number of exploited vulnerabilities
  { trace := trace
    length := vulns.length
    -- The likelihood is the average
    likelihood := listMean (vulns.map Vulnerability.likelihood)
    -- The impact is the impact on the last
    impact := (vulns.getLastD defaultVuln).impact
    -- The score is the median of the scores
    score := listMedian (vulns.map Vulnerability.score)
    -- The risk is the product of likelihood and impact (divided by 10)
    risk := listMean (vulns.map Vulnerability.likelihood)
              * (vulns.getLastD defaultVuln).impact / 10
    -- The damage is the average of the impacts
    damage := listMean (vulns.map Vulnerability.impact)
    hash := sha256hex trace
    vulns := vulns
    edges := edges }

/-! ## The attack-path builder
(`PathGenerator.convert_reachability_to_ap`, `progag/generation.py`)

The loop walks the reachability path, sampling a CVE on each target
host.  `pc i` and `pr i` are the choice / retry oracles for step `i`.
A `None` from the sampler breaks the loop (the path is cut short); an
`IndexError` propagates. -/

def convertSteps (m : AttackGraphModel) (pc pr : Nat → Nat)
    (preferred : Option (List String)) :
    List Edge → Privilege → Nat → Except SampleErr (List Vulnerability × List String)
  | [], _, _ => .ok ([], [])
  | (source_host, target_host) :: rest, priv_on_source, i =>
    match m.sampleCveOnHost (pc i) (pr i) target_host priv_on_source preferred with
    | .error e => .error e
    -- If you couldn't find the requested vulnerability, just cut the path short
    | .ok none => .ok ([], [])
    | .ok (some cve) =>
      let vuln := m.findVuln cve
      -- `priv_on_source` is reassigned to `priv_gained` *before* the trace
      -- step is formatted, so the step records `priv_gained` on both ends
      -- (the carried-forward oddity noted in the source).
      let step := PRIVILEGE_STR vuln.priv_gained ++ "@" ++ toString source_host ++ "#"
                    ++ cve ++ "#" ++ PRIVILEGE_STR vuln.priv_gained ++ "@"
                    ++ toString target_host
      match convertSteps m pc pr preferred rest vuln.priv_gained (i + 1) with
      | .error e => .error e
      | .ok (vulns, steps) => .ok (vuln :: vulns, step :: steps)

/-- `convert_reachability_to_ap(path, preferred_cves)`. -/
def convertReachabilityToAp (m : AttackGraphModel) (pc pr : Nat → Nat)
    (preferred : Option (List String)) (path : List Edge) :
    Except SampleErr (Option AttackPath) :=
  match convertSteps m pc pr preferred path .guest 0 with
  | .error e => .error e
  | .ok (exploited_vulns, trace_steps) =>
    if exploited_vulns = [] then .ok none
    else
      -- Join the steps to build the final trace
      let trace := String.intercalate "##" trace_steps
      .ok (some (AttackPath.make trace exploited_vulns
        (path.take exploited_vulns.length)))

/-- The privilege sequence of the claim: `guest` on the foothold, then
each exploited vulnerability's `priv_gained`. -/
def privSequence (ap : AttackPath) : List Privilege :=
  Privilege.guest :: ap.vulns.map Vulnerability.priv_gained

/-- The privilege sequence of a builder result, when it produced a path. -/
def privSeqOfResult : Except SampleErr (Option AttackPath) → Option (List Privilege)
  | .ok (some ap) => some (privSequence ap)
  | _ => none

/-- The privilege-feasibility invariant the builder actually maintains:
each exploited vulnerability's required privilege is at most the
privilege held when entering that step (which is `guest` initially and
the previous vulnerability's `priv_gained` afterwards). -/
def privFeasible : Privilege → List Vulnerability → Bool
  | _, [] => true
  | priv, v :: rest => (decide (v.priv_required ≤ priv)) && privFeasible v.priv_gained rest

/-- The intersection `preferred ∩ host.cves`, exactly as the code
computes it (`[cve for cve in cves if cve in preferred_cves]`). -/
def AttackGraphModel.preferredInter (m : AttackGraphModel) (host_id : Nat)
    (pref : List String) : List String :=
  (m.findHost host_id).cves.filter (fun cve => cve ∈ pref)

/-! ## Statistics (`progag/attack_paths.py`) -/

def METRIC_STEPS : Nat := 100

def MAX_LENGTH : Nat := 40

/-- Python `int()` truncation (toward zero) of a rational. -/
def pyInt (q : ℚ) : Int := Int.tdiv q.num q.den

/-- `get_metric_index(value)`: `METRIC_STEPS - 1` for the value `10.0`,
otherwise `int(value / 10 * METRIC_STEPS)`.  The metric values are
non-negative, where truncation and flooring agree; the `Int.toNat`
conversion is the list-indexing of the non-negative result. -/
def getMetricIndex (value : ℚ) : Nat :=
  if value = 10 then METRIC_STEPS - 1
  else (pyInt (value / 10 * METRIC_STEPS)).toNat

/-- `lst[i] += 1` (indices at the call sites are always in range). -/
def listIncr : List Nat → Nat → List Nat
  | [], _ => []
  | x :: xs, 0 => (x + 1) :: xs
  | x :: xs, i + 1 => x :: listIncr xs i

/-- Bump a counter in a `dict[int, int]` (assoc list). -/
def bumpCount : List (Nat × Nat) → Nat → List (Nat × Nat)
  | [], k => [(k, 1)]
  | (k', v) :: rest, k =>
    if k' = k then (k', v + 1) :: rest else (k', v) :: bumpCount rest k

/-- Bump a counter in the nested `edges_count` dict. -/
def bumpEdgeCount : List (Nat × List (Nat × Nat)) → Nat → Nat →
    List (Nat × List (Nat × Nat))
  | [], s, t => [(s, [(t, 1)])]
  | (k, inner) :: rest, s, t =>
    if k = s then (k, bumpCount inner t) :: rest
    else (k, inner) :: bumpEdgeCount rest s t

/-- The `AttackPath.hosts` property: the set of hosts appearing in the
path's edges (as a deduplicated list). -/
def AttackPath.hosts (ap : AttackPath) : List Nat :=
  (ap.edges.flatMap (fun e => [e.1, e.2])).dedup

/-- The `AttackPathStatistics` record: per-metric histograms, the
length histogram, and the host / edge tallies with their running sums. -/
structure AttackPathStatistics where
  num_paths : Nat
  likelihoods : List Nat
  impacts : List Nat
  damages : List Nat
  scores : List Nat
  risks : List Nat
  lengths : List Nat
  hosts_count : List (Nat × Nat)
  edges_count : List (Nat × List (Nat × Nat))
  hosts_sum : Nat
  edges_sum : Nat

/-- `AttackPathStatistics.__init__`. -/
def AttackPathStatistics.init : AttackPathStatistics :=
  ⟨0, List.replicate METRIC_STEPS 0, List.replicate METRIC_STEPS 0,
   List.replicate METRIC_STEPS 0, List.replicate METRIC_STEPS 0,
   List.replicate METRIC_STEPS 0, List.replicate MAX_LENGTH 0, [], [], 0, 0⟩

/-- `_update_hosts_and_edges(ap)`. -/
def AttackPathStatistics.updateHostsAndEdges (st : AttackPathStatistics)
    (ap : AttackPath) : AttackPathStatistics :=
  let st := ap.edges.foldl
    (fun st e =>
      { st with edges_count := bumpEdgeCount st.edges_count e.1 e.2,
                edges_sum := st.edges_sum + 1 })
    st
  ap.hosts.foldl
    (fun st h =>
      { st with hosts_count := bumpCount st.hosts_count h,
                hosts_sum := st.hosts_sum + 1 })
    st

/-- The body of the `for ap in new_paths` loop of
`AttackPathStatistics.update`.  Note the length tally: `le >= 40` goes
to index 39, otherwise the increment is at index `le` itself. -/
def AttackPathStatistics.updateOne (st : AttackPathStatistics)
    (ap : AttackPath) : AttackPathStatistics :=
  let st := st.updateHostsAndEdges ap
  { st with
    likelihoods := listIncr st.likelihoods (getMetricIndex ap.likelihood),
    impacts := listIncr st.impacts (getMetricIndex ap.impact),
    scores := listIncr st.scores (getMetricIndex ap.score),
    risks := listIncr st.risks (getMetricIndex ap.risk),
    damages := listIncr st.damages (getMetricIndex ap.damage),
    lengths :=
      if MAX_LENGTH ≤ ap.length then listIncr st.lengths (MAX_LENGTH - 1)
      else listIncr st.lengths ap.length }

/-- `AttackPathStatistics.update(new_paths)`. -/
def AttackPathStatistics.update (st : AttackPathStatistics)
    (new_paths : List AttackPath) : AttackPathStatistics :=
  new_paths.foldl AttackPathStatistics.updateOne
    { st with num_paths := st.num_paths + new_paths.length }

/-! ## Generator dedup state (`progag/generation.py`, `progag/steering.py`)

The slice of generator state the deduplication invariant is about:
`unique_hashes` (a set, embedded as a list kept duplicate-free by
insert-if-absent), `generated` and `collision`.  The sampler and
builder are abstracted: an iteration is driven by the list of attack
paths the conversion produced (in order). -/

structure GenState where
  unique_hashes : List String
  generated : List Nat
  collision : List ℚ

def GenState.init : GenState := ⟨[], [], []⟩

/-- The body of the dedup loop of `sample_attack_paths` on the
accumulator `(unique_hashes, sampled_aps, collisions)`: count each
converted path, count a collision when its hash is already known,
otherwise record the hash (and keep the path). -/
def dedupStep (acc : List String × Nat × Nat) (ap : AttackPath) :
    List String × Nat × Nat :=
  if ap.hash ∈ acc.1 then (acc.1, acc.2.1 + 1, acc.2.2 + 1)
  else (ap.hash :: acc.1, acc.2.1 + 1, acc.2.2)

def dedupFold (hs : List String) (aps : List AttackPath) :
    List String × Nat × Nat :=
  aps.foldl dedupStep (hs, 0, 0)

/-- One `sample_attack_paths` iteration: run the dedup loop, then
append `sampled_aps - collisions` to `generated` and the collision
rate (`collisions / sampled_aps`, or 0) to `collision`. -/
def sampleAttackPathsStep (st : GenState) (aps : List AttackPath) : GenState :=
  { unique_hashes := (dedupFold st.unique_hashes aps).1,
    generated := st.generated ++
      [(dedupFold st.unique_hashes aps).2.1 - (dedupFold st.unique_hashes aps).2.2],
    collision := st.collision ++
      [if 0 < (dedupFold st.unique_hashes aps).2.1 then
        ((dedupFold st.unique_hashes aps).2.2 : ℚ) / (dedupFold st.unique_hashes aps).2.1
       else 0] }

/-- `SteeringPathGenerator.add_bootstrap`, restricted to the dedup
state: `generated` gets the *raw* number of bootstrap paths while
`unique_hashes` absorbs only their distinct new hashes. -/
def addBootstrap (st : GenState) (aps : List AttackPath) : GenState :=
  { unique_hashes :=
      aps.foldl (fun hs ap => if ap.hash ∈ hs then hs else ap.hash :: hs)
        st.unique_hashes,
    generated := st.generated ++ [aps.length],
    collision := st.collision ++ [0] }

/-- A generator lifetime: any interleaving of `step` and
`add_bootstrap` calls, each carrying the attack paths it processed. -/
inductive GenOp where
  | step (aps : List AttackPath)
  | bootstrap (aps : List AttackPath)

def applyOp (st : GenState) : GenOp → GenState
  | .step aps => sampleAttackPathsStep st aps
  | .bootstrap aps => addBootstrap st aps

def applyOps (st : GenState) : List GenOp → GenState
  | [] => st
  | op :: rest => applyOps (applyOp st op) rest

/-- Bootstrap calls are *benign* when the supplied paths have pairwise
distinct hashes, none already known.  `step` calls need no condition. -/
def goodOps (st : GenState) : List GenOp → Prop
  | [] => True
  | GenOp.step aps :: rest => goodOps (sampleAttackPathsStep st aps) rest
  | GenOp.bootstrap aps :: rest =>
    (aps.map AttackPath.hash).Nodup
    ∧ (∀ ap ∈ aps, ap.hash ∉ st.unique_hashes)
    ∧ goodOps (addBootstrap st aps) rest

/-! ## Steering retrain trigger (`progag/steering.py`, `step`) -/

/-- `precision[-5:]`. -/
def lastFivePrec (precision : List ℚ) : List ℚ :=
  precision.drop (precision.length - 5)

/-- `avg = sum(last_five) / 5.0; update = avg <= precision[-1]`: the
divisor is the constant `5.0`, not the number of elements taken. -/
def retrainTrigger (precision : List ℚ) : Bool :=
  decide ((lastFivePrec precision).sum / 5 ≤ precision.getLastD 0)

/-- The classifier is retrained when the trigger fires *or* the
steering-compliant set is empty
(`if update_steering_vulns or len(self.steering_compliant_vulns) == 0`). -/
def stepRetrains (precision : List ℚ)
    (steering_compliant_vulns : List String) : Bool :=
  retrainTrigger precision || steering_compliant_vulns.isEmpty

/-- The trigger as the claim words it (for comparison): the arithmetic
mean over however many of the last up-to-5 precision values exist. -/
def specRetrainTrigger (precision : List ℚ) : Bool :=
  decide ((lastFivePrec precision).sum / (lastFivePrec precision).length
    ≤ precision.getLastD 0)

/-! ## Joint histograms (`server/joint.py`, `_compute_histograms`)

The `length` branch over the `value_counts()` result (a list of
distinct `(length, count)` pairs): each pair *assigns* (`=`, not `+=`)
its count into the histogram — index 39 for `length ≥ 40`, index
`length` otherwise. -/

def lengthHistogramAssign (len_counts : List (Nat × Nat)) : List Nat :=
  len_counts.foldl
    (fun histogram lc =>
      if MAX_LENGTH ≤ lc.1 then histogram.set (MAX_LENGTH - 1) lc.2
      else histogram.set lc.1 lc.2)
    (List.replicate MAX_LENGTH 0)

/-! ## The path sampler (`progag/sampling.py`) -/

/-- `_sample_next_host(current_host, visited, forward)`: candidates are
the successors (forward) or predecessors (backward) of `current_host`
not yet visited.  No candidate stops the walk; a single candidate
bypasses the RNG; with two or more candidates the RNG draws one
(Bernoulli on the two edge weights, or weighted sampling) — the `pick`
oracle abstracts the draw by supplying the index of the drawn
candidate. -/
def sampleNextHost (m : AttackGraphModel) (pick : List Nat → Nat)
    (current_host : Nat) (visited : List Nat) (forward : Bool) : Option Nat :=
  let neighbors :=
    if forward then (m.successors current_host).filter (fun h => h ∉ visited)
    else (m.predecessors current_host).filter (fun h => h ∉ visited)
  match neighbors with
  | [] => none
  | [a] => some a
  | a :: b :: rest =>
    some ((a :: b :: rest).getD (pick (a :: b :: rest) % (rest.length + 2)) a)

/-- The loop of `_sample_one_end`, returning the accumulated path and
the final visited set.  Two behaviors are embedded faithfully from the
source: (1) the call to `_sample_next_host` passes `forward=True`
unconditionally, regardless of the walk's own `forward` flag; and
(2) the Python guard `if not next_host: break` also stops when the
drawn host id is `0`, because `0` is falsy. -/
def sampleOneEndLoop (m : AttackGraphModel) (pick : List Nat → Nat)
    (forward : Bool) : Nat → Nat → List Nat → List Edge → List Edge × List Nat
  | 0, _, visited, path => (path, visited)
  | fuel + 1, current_host, visited, path =>
    match sampleNextHost m pick current_host visited true with
    | none => (path, visited)
    | some next_host =>
      if next_host = 0 then (path, visited)
      else if forward then
        sampleOneEndLoop m pick forward fuel next_host (visited ++ [next_host])
          (path ++ [(current_host, next_host)])
      else
        -- When going backwards, you prepend the new edge so that the
        -- target is the same as the last edge's source.
        sampleOneEndLoop m pick forward fuel next_host (visited ++ [next_host])
          ((next_host, current_host) :: path)

/-- `_sample_one_end(start_host, max_length, forward, visited)`. -/
def sampleOneEnd (m : AttackGraphModel) (pick : List Nat → Nat)
    (start_host max_length : Nat) (forward : Bool) (visited : List Nat) :
    List Edge × List Nat :=
  sampleOneEndLoop m pick forward max_length start_host
    (if start_host ∈ visited then visited else visited ++ [start_host]) []

/-- `PassingThrough.sample`: a forward walk of length `first_half` from
the pivot, then a backward walk of length `second_half` from the pivot
sharing the visited set, concatenated as `first_path + second_path`
(the random length split is abstracted into the two length
parameters). -/
def passingThroughSample (m : AttackGraphModel) (pick : List Nat → Nat)
    (pivot first_half second_half : Nat) : List Edge :=
  let first := sampleOneEnd m pick pivot first_half true []
  let second := sampleOneEnd m pick pivot second_half false first.2
  first.1 ++ second.1

/-- Whether consecutive edges of a path share endpoints (each edge's
target is the next edge's source). -/
def edgesChained : List Edge → Bool
  | [] => true
  | [_] => true
  | e :: f :: rest => (decide (e.2 = f.1)) && edgesChained (f :: rest)

/-! ## Concrete test fixtures

Small concrete models used to instantiate the theorems (witnesses and
counterexamples).  `vRootOnly` requires root, so a guest attacker can
never use it. -/

def vRootOnly : Vulnerability :=
  ⟨"CVE-R", SteeringBaseFeatures.default, .root, .root⟩

def modelC5 : AttackGraphModel :=
  ⟨[(1, ⟨1, "h1", "10.0.0.1", ["CVE-R"], [], 0, 0, 0⟩)], [],
   [("CVE-R", vRootOnly)]⟩

def modelC9 : AttackGraphModel :=
  ⟨[(1, ⟨1, "h1", "10.0.0.1", [], [], 0, 0, 0⟩)], [], []⟩

/-- A vulnerability that a guest can exploit and that grants user
(e.g. CVSS v2 with `authentication = NONE` and
`obtainUserPrivilege = true`). -/
def vGuestToUser : Vulnerability :=
  ⟨"CVE-A", ⟨2, 3, 4, 1, 1, 0, 1, 1, 1, 2⟩, .guest, .user⟩

/-- A vulnerability that a guest can exploit and that grants only guest
(e.g. CVSS v3 with `privilegesRequired = NONE`, `scope = UNCHANGED`,
or the no-metrics default). -/
def vGuestToGuest : Vulnerability :=
  ⟨"CVE-B", ⟨6, 7, 8, 1, 2, 0, 2, 2, 2, 3⟩, .guest, .guest⟩

/-- Line graph 0 → 1 → 2; host 1 carries only `CVE-A`
(guest → user), host 2 carries only `CVE-B` (guest → guest). -/
def modelC1 : AttackGraphModel :=
  ⟨[(0, ⟨0, "h0", "10.0.0.0", [], [], 0, 0, 0⟩),
    (1, ⟨1, "h1", "10.0.0.1", ["CVE-A"], [], 0, 0, 0⟩),
    (2, ⟨2, "h2", "10.0.0.2", ["CVE-B"], [], 0, 0, 0⟩)],
   [(0, 1), (1, 2)],
   [("CVE-A", vGuestToUser), ("CVE-B", vGuestToGuest)]⟩

/-- One-edge model for instantiating the builder: host 1 carries the
single guest-exploitable `CVE-A`. -/
def modelC3 : AttackGraphModel :=
  ⟨[(0, ⟨0, "h0", "10.0.0.0", [], [], 0, 0, 0⟩),
    (1, ⟨1, "h1", "10.0.0.1", ["CVE-A"], [], 0, 0, 0⟩)],
   [(0, 1)],
   [("CVE-A", vGuestToUser)]⟩

/-- The attack path the builder produces from `modelC3` on the walk
`[(0, 1)]`. -/
def apC3 : AttackPath :=
  AttackPath.make "user@0#CVE-A#user@1" [vGuestToUser] [(0, 1)]

/-- Two hosts with the single directed edge 1 → 2 (so host 1 has no
predecessors). -/
def modelC2 : AttackGraphModel :=
  ⟨[(1, ⟨1, "h1", "10.0.0.1", [], [], 0, 0, 0⟩),
    (2, ⟨2, "h2", "10.0.0.2", [], [], 0, 0, 0⟩)],
   [(1, 2)], []⟩

/-- Three hosts with edges 1 → 2 and 1 → 3. -/
def modelC7 : AttackGraphModel :=
  ⟨[(1, ⟨1, "h1", "10.0.0.1", [], [], 0, 0, 0⟩),
    (2, ⟨2, "h2", "10.0.0.2", [], [], 0, 0, 0⟩),
    (3, ⟨3, "h3", "10.0.0.3", [], [], 0, 0, 0⟩)],
   [(1, 2), (1, 3)], []⟩

/-! ############################################################
    ## Theorems
    ############################################################ -/

theorem randomChoice_mem (pick : Nat) (l : List α) (x : α)
    (h : randomChoice pick l = .ok x) : x ∈ l := by
  cases l with
  | nil => exact absurd h (by simp [randomChoice])
  | cons a as =>
    simp only [randomChoice, Except.ok.injEq] at h
    subst h
    have hlt : pick % (as.length + 1) < (a :: as).length := by
      simpa using Nat.mod_lt _ (Nat.succ_pos _)
    rw [List.getD_eq_getElem?_getD, List.getElem?_eq_getElem hlt]
    exact List.getElem_mem hlt

theorem except_map_some_eq_ok {α : Type} {e : Except SampleErr α} {x : α}
    (h : Except.map some e = .ok (some x)) : e = .ok x := by
  cases e with
  | error err => simp [Except.map] at h
  | ok a =>
    simp only [Except.map, Except.ok.injEq, Option.some.injEq] at h
    rw [h]

theorem except_map_some_ne_ok_none {α : Type} (e : Except SampleErr α) :
    Except.map some e ≠ .ok none := by
  cases e <;> simp [Except.map]

theorem sampleCveOnHostNoPref_none {m : AttackGraphModel} {pick : Nat}
    {host_id : Nat} {current_priv : Privilege}
    (h : m.sampleCveOnHostNoPref pick host_id current_priv = .ok none) :
    m.privFiltered host_id current_priv = [] := by
  unfold AttackGraphModel.sampleCveOnHostNoPref at h
  dsimp only at h
  split at h
  · exact absurd h (except_map_some_ne_ok_none _)
  · split at h
    · unfold AttackGraphModel.privFiltered
      assumption
    · exact absurd h (except_map_some_ne_ok_none _)

/-- A successfully sampled CVE always satisfies the privilege
constraint `priv_required ≤ current_priv` (trivially so at root). -/
theorem sampleCveOnHost_sound {m : AttackGraphModel} {pick pickRetry : Nat}
    {host_id : Nat} {current_priv : Privilege} {preferred : Option (List String)}
    {cve : String}
    (h : m.sampleCveOnHost pick pickRetry host_id current_priv preferred
        = .ok (some cve)) :
    (m.findVuln cve).priv_required ≤ current_priv := by
  have noPref : ∀ (p : Nat),
      m.sampleCveOnHostNoPref p host_id current_priv = .ok (some cve) →
      (m.findVuln cve).priv_required ≤ current_priv := by
    intro p hp
    unfold AttackGraphModel.sampleCveOnHostNoPref at hp
    dsimp only at hp
    split at hp
    · next hr => rw [hr]; exact Privilege.le_root _
    · split at hp
      · exact absurd hp (by simp)
      · have hm := randomChoice_mem p _ cve (except_map_some_eq_ok hp)
        exact of_decide_eq_true (List.mem_filter.mp hm).2
  cases preferred with
  | none => exact noPref pick h
  | some pref =>
    unfold AttackGraphModel.sampleCveOnHost at h
    dsimp only at h
    split at h
    · exact noPref pickRetry h
    · split at h
      · next hr => rw [hr]; exact Privilege.le_root _
      · split at h
        · exact noPref pickRetry h
        · have hm := randomChoice_mem pick _ cve (except_map_some_eq_ok h)
          exact of_decide_eq_true (List.mem_filter.mp hm).2

/-- C5: with `preferred` provided, if `preferred ∩ host.cves` is empty
or no CVE in that intersection satisfies `priv_required ≤
current_priv`, `sample_cve_on_host` behaves exactly as the same call
without the preference (the retry, driven by the retry oracle); and
the call returns `None` only if after that retry no CVE on the host
satisfies `priv_required ≤ current_priv`. -/
theorem C5_preferred_fallback (m : AttackGraphModel) (pick pickRetry host_id : Nat)
    (priv : Privilege) (pref : List String) :
    ((m.preferredInter host_id pref = [] ∨
        ∀ cve ∈ m.preferredInter host_id pref,
          ¬ (m.findVuln cve).priv_required ≤ priv) →
      m.sampleCveOnHost pick pickRetry host_id priv (some pref)
        = m.sampleCveOnHostNoPref pickRetry host_id priv)
    ∧ (m.sampleCveOnHost pick pickRetry host_id priv (some pref) = .ok none →
        m.privFiltered host_id priv = []) := by
  constructor
  · intro hyp
    unfold AttackGraphModel.sampleCveOnHost
    dsimp only
    split
    · rfl
    · next hne =>
      have hall : ∀ cve ∈ m.preferredInter host_id pref,
          ¬ (m.findVuln cve).priv_required ≤ priv := by
        cases hyp with
        | inl he => exact absurd he hne
        | inr hh => exact hh
      split
      · next hroot =>
        exfalso
        obtain ⟨c, hc⟩ := List.exists_mem_of_ne_nil _ hne
        exact hall c hc (by rw [hroot]; exact Privilege.le_root _)
      · split
        · rfl
        · next hf =>
          exfalso
          obtain ⟨c, hc⟩ := List.exists_mem_of_ne_nil _ hf
          have hcf := List.mem_filter.mp hc
          exact hall c hcf.1 (of_decide_eq_true hcf.2)
  · intro hres
    unfold AttackGraphModel.sampleCveOnHost at hres
    dsimp only at hres
    split at hres
    · exact sampleCveOnHostNoPref_none hres
    · split at hres
      · exact absurd hres (except_map_some_ne_ok_none _)
      · split at hres
        · exact sampleCveOnHostNoPref_none hres
        · exact absurd hres (except_map_some_ne_ok_none _)

/-- C5 witness: a concrete call (empty preferred set, a host whose only
CVE needs root, a guest attacker) on which both hypotheses of
`C5_preferred_fallback` hold. -/
theorem C5_preferred_fallback_witness :
    (modelC5.sampleCveOnHost 0 0 1 .guest (some [])
      = modelC5.sampleCveOnHostNoPref 0 1 .guest)
    ∧ modelC5.privFiltered 1 .guest = [] :=
  ⟨(C5_preferred_fallback modelC5 0 0 1 .guest []).1 (Or.inl (by rfl)),
   (C5_preferred_fallback modelC5 0 0 1 .guest []).2 (by rfl)⟩

/-- C9: on a host with an empty `cves` list, `sample_cve_on_host`
(no preference) returns `None` for guest and user attackers, but
raises `IndexError` (from `random.choice` on an empty list) for a root
attacker instead of returning `None`. -/
theorem C9_empty_cves_root_raises (m : AttackGraphModel)
    (pick pickRetry host_id : Nat)
    (h : (m.findHost host_id).cves = []) :
    m.sampleCveOnHost pick pickRetry host_id .guest none = .ok none
    ∧ m.sampleCveOnHost pick pickRetry host_id .user none = .ok none
    ∧ m.sampleCveOnHost pick pickRetry host_id .root none
        = .error .indexError := by
  refine ⟨?_, ?_, ?_⟩ <;>
    simp [AttackGraphModel.sampleCveOnHost,
      AttackGraphModel.sampleCveOnHostNoPref, h, randomChoice, Except.map]

theorem convertSteps_length_le {m : AttackGraphModel} {pc pr : Nat → Nat}
    {preferred : Option (List String)} :
    ∀ {path : List Edge} {priv : Privilege} {i : Nat}
      {vulns : List Vulnerability} {steps : List String},
      convertSteps m pc pr preferred path priv i = .ok (vulns, steps) →
      vulns.length ≤ path.length := by
  intro path
  induction path with
  | nil =>
    intro priv i vulns steps h
    simp only [convertSteps, Except.ok.injEq, Prod.mk.injEq] at h
    simp [← h.1]
  | cons e rest ih =>
    intro priv i vulns steps h
    obtain ⟨s, t⟩ := e
    simp only [convertSteps] at h
    cases hs : m.sampleCveOnHost (pc i) (pr i) t priv preferred with
    | error err => rw [hs] at h; cases h
    | ok o =>
      rw [hs] at h
      cases o with
      | none =>
        simp only [Except.ok.injEq, Prod.mk.injEq] at h
        simp [← h.1]
      | some cve =>
        dsimp only at h
        cases hrec : convertSteps m pc pr preferred rest
            (m.findVuln cve).priv_gained (i + 1) with
        | error err => rw [hrec] at h; cases h
        | ok q =>
          obtain ⟨vulns', steps'⟩ := q
          rw [hrec] at h
          simp only [Except.ok.injEq, Prod.mk.injEq] at h
          rw [← h.1]
          simpa using ih hrec

theorem convertSteps_feasible {m : AttackGraphModel} {pc pr : Nat → Nat}
    {preferred : Option (List String)} :
    ∀ {path : List Edge} {priv : Privilege} {i : Nat}
      {vulns : List Vulnerability} {steps : List String},
      convertSteps m pc pr preferred path priv i = .ok (vulns, steps) →
      privFeasible priv vulns = true := by
  intro path
  induction path with
  | nil =>
    intro priv i vulns steps h
    simp only [convertSteps, Except.ok.injEq, Prod.mk.injEq] at h
    rw [← h.1]; rfl
  | cons e rest ih =>
    intro priv i vulns steps h
    obtain ⟨s, t⟩ := e
    simp only [convertSteps] at h
    cases hs : m.sampleCveOnHost (pc i) (pr i) t priv preferred with
    | error err => rw [hs] at h; cases h
    | ok o =>
      rw [hs] at h
      cases o with
      | none =>
        simp only [Except.ok.injEq, Prod.mk.injEq] at h
        rw [← h.1]; rfl
      | some cve =>
        dsimp only at h
        cases hrec : convertSteps m pc pr preferred rest
            (m.findVuln cve).priv_gained (i + 1) with
        | error err => rw [hrec] at h; cases h
        | ok q =>
          obtain ⟨vulns', steps'⟩ := q
          rw [hrec] at h
          simp only [Except.ok.injEq, Prod.mk.injEq] at h
          rw [← h.1]
          simp only [privFeasible, Bool.and_eq_true, decide_eq_true_eq]
          exact ⟨sampleCveOnHost_sound hs, ih hrec⟩

/-- C3: every attack path returned by the builder satisfies the
constructor invariants: `length = len(vulns) = len(edges) ≥ 1`,
`likelihood = mean(likelihoods)`, `impact = last impact`,
`score = median(scores)`, `damage = mean(impacts)`,
`risk = likelihood·impact/10`, and `hash = SHA-256(trace)` hex. -/
theorem C3_attack_path_invariants (m : AttackGraphModel) (pc pr : Nat → Nat)
    (preferred : Option (List String)) (path : List Edge) (ap : AttackPath)
    (h : convertReachabilityToAp m pc pr preferred path = .ok (some ap)) :
    ap.length = ap.vulns.length ∧ ap.length = ap.edges.length ∧ 1 ≤ ap.length
    ∧ ap.likelihood = listMean (ap.vulns.map Vulnerability.likelihood)
    ∧ ap.impact = (ap.vulns.getLastD defaultVuln).impact
    ∧ ap.score = listMedian (ap.vulns.map Vulnerability.score)
    ∧ ap.damage = listMean (ap.vulns.map Vulnerability.impact)
    ∧ ap.risk = ap.likelihood * ap.impact / 10
    ∧ ap.hash = sha256hex ap.trace := by
  unfold convertReachabilityToAp at h
  cases hcs : convertSteps m pc pr preferred path .guest 0 with
  | error e => rw [hcs] at h; cases h
  | ok p =>
    obtain ⟨vulns, steps⟩ := p
    rw [hcs] at h
    dsimp only at h
    split at h
    · cases h
    · next hne =>
      have hlen := convertSteps_length_le hcs
      injection h with h1
      injection h1 with h2
      subst h2
      refine ⟨rfl, ?_, ?_, rfl, rfl, rfl, rfl, rfl, rfl⟩
      · simp [AttackPath.make, List.length_take, Nat.min_eq_left hlen]
      · simpa [AttackPath.make] using List.length_pos.mpr hne

/-- C3 witness: the builder run on the one-edge model produces `apC3`,
which satisfies all the invariants. -/
theorem C3_attack_path_invariants_witness :
    (convertReachabilityToAp modelC3 (fun _ => 0) (fun _ => 0) none [(0, 1)]
      = .ok (some apC3))
    ∧ (apC3.length = apC3.vulns.length ∧ apC3.length = apC3.edges.length
       ∧ 1 ≤ apC3.length
       ∧ apC3.likelihood = listMean (apC3.vulns.map Vulnerability.likelihood)
       ∧ apC3.impact = (apC3.vulns.getLastD defaultVuln).impact
       ∧ apC3.score = listMedian (apC3.vulns.map Vulnerability.score)
       ∧ apC3.damage = listMean (apC3.vulns.map Vulnerability.impact)
       ∧ apC3.risk = apC3.likelihood * apC3.impact / 10
       ∧ apC3.hash = sha256hex apC3.trace) :=
  ⟨by rfl,
   C3_attack_path_invariants modelC3 (fun _ => 0) (fun _ => 0) none [(0, 1)] apC3
     (by rfl)⟩

/-- C1 counterexample: on the line graph `modelC1` the builder
deterministically produces the path exploiting `CVE-A` (guest → user)
then `CVE-B` (guest → guest); its privilege sequence
`[guest, user, guest]` is not monotone non-decreasing. -/
theorem C1_counterexample :
    privSeqOfResult (convertReachabilityToAp modelC1 (fun _ => 0) (fun _ => 0)
        none [(0, 1), (1, 2)])
      = some [Privilege.guest, Privilege.user, Privilege.guest]
    ∧ ¬ List.Chain' (· ≤ ·) [Privilege.guest, Privilege.user, Privilege.guest] := by
  refine ⟨by rfl, fun h => ?_⟩
  obtain ⟨-, h2⟩ := List.chain'_cons.mp h
  obtain ⟨hug, -⟩ := List.chain'_cons.mp h2
  exact absurd hug (by decide)

/-- C1 (amended): the privilege sequence along a built path need not be
monotone; what the builder guarantees is feasibility — each exploited
vulnerability's `priv_required` is at most the privilege held when
entering that step (`guest` at the foothold, then the previous
vulnerability's `priv_gained`). -/
theorem C1_privilege_feasibility (m : AttackGraphModel) (pc pr : Nat → Nat)
    (preferred : Option (List String)) (path : List Edge) (ap : AttackPath)
    (h : convertReachabilityToAp m pc pr preferred path = .ok (some ap)) :
    privFeasible .guest ap.vulns = true := by
  unfold convertReachabilityToAp at h
  cases hcs : convertSteps m pc pr preferred path .guest 0 with
  | error e => rw [hcs] at h; cases h
  | ok p =>
    obtain ⟨vulns, steps⟩ := p
    rw [hcs] at h
    dsimp only at h
    split at h
    · cases h
    · injection h with h1
      injection h1 with h2
      subst h2
      exact convertSteps_feasible hcs

/-- C1 witness: the feasibility invariant at a concrete builder run. -/
theorem C1_privilege_feasibility_witness :
    (convertReachabilityToAp modelC1 (fun _ => 0) (fun _ => 0) none
        [(0, 1), (1, 2)]
      ≠ .error .indexError)
    ∧ privFeasible .guest [vGuestToUser, vGuestToGuest] = true := by
  constructor
  · intro hc
    cases hc
  · have h : convertReachabilityToAp modelC1 (fun _ => 0) (fun _ => 0) none
        [(0, 1), (1, 2)]
        = .ok (some (AttackPath.make "user@0#CVE-A#user@1##guest@1#CVE-B#guest@2"
            [vGuestToUser, vGuestToGuest] [(0, 1), (1, 2)])) := by rfl
    exact C1_privilege_feasibility modelC1 (fun _ => 0) (fun _ => 0) none
      [(0, 1), (1, 2)] _ h

/-- C2: evaluation at the failing input.  A backward walk
(`forward=false`) of one step from host 1 in the graph whose only edge
is 1 → 2: host 1 has no predecessors, so per the claim the candidate
set is empty and the walk must stop empty; the code instead draws from
the successors (the `_sample_next_host` call hard-codes
`forward=True`), producing `[(2, 1)]` — an edge that does not even
exist in the graph. -/
theorem C2_backward_walk_uses_successors :
    (sampleOneEnd modelC2 (fun _ => 0) 1 1 false []).1 = [(2, 1)]
    ∧ modelC2.predecessors 1 = []
    ∧ ((2, 1) ∉ modelC2.edges) := by
  refine ⟨by rfl, by rfl, by decide⟩

/-- C7: evaluation at the failing input.  On the graph {1 → 2, 1 → 3}
with pivot 1 and a 1/1 length split, `PassingThrough.sample` returns
`first_path + second_path` — the forward part first — i.e.
`[(1, 2), (3, 1)]`, whose consecutive edges do not share endpoints;
the claimed backward-first concatenation `[(3, 1), (1, 2)]` would
chain with the pivot as the junction. -/
theorem C7_forward_part_concatenated_first :
    passingThroughSample modelC7 (fun _ => 0) 1 1 1 = [(1, 2), (3, 1)]
    ∧ edgesChained [(1, 2), (3, 1)] = false
    ∧ edgesChained [(3, 1), (1, 2)] = true := by
  refine ⟨by rfl, by rfl, by rfl⟩

theorem updateHostsAndEdges_lengths (st : AttackPathStatistics) (ap : AttackPath) :
    (st.updateHostsAndEdges ap).lengths = st.lengths := by
  unfold AttackPathStatistics.updateHostsAndEdges
  have hedges : ∀ (l : List Edge) (s : AttackPathStatistics),
      (l.foldl (fun st e =>
        { st with edges_count := bumpEdgeCount st.edges_count e.1 e.2,
                  edges_sum := st.edges_sum + 1 }) s).lengths = s.lengths := by
    intro l
    induction l with
    | nil => intro s; rfl
    | cons e es ih => intro s; rw [List.foldl_cons, ih]
  have hhosts : ∀ (l : List Nat) (s : AttackPathStatistics),
      (l.foldl (fun st h =>
        { st with hosts_count := bumpCount st.hosts_count h,
                  hosts_sum := st.hosts_sum + 1 }) s).lengths = s.lengths := by
    intro l
    induction l with
    | nil => intro s; rfl
    | cons e es ih => intro s; rw [List.foldl_cons, ih]
  rw [hhosts, hedges]

/-- C6 (amended): `AttackPathStatistics.update` tallies a path of
length `L < 40` into the bucket at index `L` itself (not `L − 1`), so
index 0 is never used by a real path and lengths 39 and ≥ 40 share the
last bucket; a path of length ≥ 40 goes to index 39. -/
theorem C6_length_bucket (st : AttackPathStatistics) (ap : AttackPath) :
    (st.update [ap]).lengths =
      if MAX_LENGTH ≤ ap.length then listIncr st.lengths (MAX_LENGTH - 1)
      else listIncr st.lengths ap.length := by
  unfold AttackPathStatistics.update
  simp only [List.foldl_cons, List.foldl_nil]
  unfold AttackPathStatistics.updateOne
  simp only [updateHostsAndEdges_lengths]

/-- C6 counterexample: a concrete path of length 1 updates bucket
index 1, not index `L − 1 = 0` as the claim states. -/
theorem C6_counterexample :
    apC3.length = 1
    ∧ (AttackPathStatistics.init.update [apC3]).lengths.getD 0 0 = 0
    ∧ (AttackPathStatistics.init.update [apC3]).lengths.getD 1 0 = 1 := by
  refine ⟨by rfl, by rfl, by rfl⟩

theorem getD_set_eq (l : List Nat) (n a : Nat) (h : n < l.length) :
    (l.set n a).getD n 0 = a := by
  induction l generalizing n with
  | nil => simp at h
  | cons x xs ih =>
    cases n with
    | zero => rfl
    | succ k => exact ih k (by simpa using h)

theorem getD_set_ne (l : List Nat) (n m a : Nat) (h : m ≠ n) :
    (l.set m a).getD n 0 = l.getD n 0 := by
  induction l generalizing n m with
  | nil => rfl
  | cons x xs ih =>
    cases m with
    | zero => cases n with
      | zero => exact absurd rfl h
      | succ k => rfl
    | succ j => cases n with
      | zero => rfl
      | succ k => exact ih k j (by omega)

theorem set_length_eq (l : List Nat) (m a : Nat) :
    (l.set m a).length = l.length := List.length_set ..

theorem lengthHistogramLoop_getD (counts : List (Nat × Nat)) :
    ∀ (hist : List Nat), hist.length = MAX_LENGTH →
      (counts.foldl
        (fun histogram lc =>
          if MAX_LENGTH ≤ lc.1 then histogram.set (MAX_LENGTH - 1) lc.2
          else histogram.set lc.1 lc.2)
        hist).getD 39 0
      = if counts.filter (fun p => 39 ≤ p.1) = [] then hist.getD 39 0
        else ((counts.filter (fun p => 39 ≤ p.1)).getLastD (0, 0)).2 := by
  induction counts with
  | nil => intro hist hlen; simp
  | cons c rest ih =>
    intro hist hlen
    rw [List.foldl_cons]
    by_cases hc : (39 : Nat) ≤ c.1
    · have hwrite : (if MAX_LENGTH ≤ c.1 then hist.set (MAX_LENGTH - 1) c.2
          else hist.set c.1 c.2).getD 39 0 = c.2 := by
        by_cases h40 : MAX_LENGTH ≤ c.1
        · rw [if_pos h40]
          exact getD_set_eq hist 39 c.2 (by rw [hlen]; decide)
        · rw [if_neg h40]
          have hc39 : c.1 = 39 := by unfold MAX_LENGTH at h40; omega
          rw [hc39]
          exact getD_set_eq hist 39 c.2 (by rw [hlen]; decide)
      have hfilter : (c :: rest).filter (fun p => 39 ≤ p.1)
          = c :: rest.filter (fun p => 39 ≤ p.1) := by
        simp [List.filter_cons, hc]
      rw [ih _ (by rw [apply_ite List.length, set_length_eq, set_length_eq, ite_self]; exact hlen)]
      rw [hfilter]
      by_cases hrest : rest.filter (fun p => 39 ≤ p.1) = []
      · rw [if_pos hrest, hwrite, hrest]
        simp
      · rw [if_neg hrest]
        have : (c :: rest.filter (fun p => 39 ≤ p.1)) ≠ [] := by simp
        rw [if_neg this]
        rw [List.getLastD_cons]
        cases he : rest.filter (fun p => 39 ≤ p.1) with
        | nil => exact absurd he hrest
        | cons d ds =>
          rw [List.getLastD_eq_getLast?, List.getLastD_eq_getLast?]
          obtain ⟨x, hx⟩ := Option.isSome_iff_exists.mp
            (List.getLast?_isSome.mpr (List.cons_ne_nil d ds))
          rw [hx]
          rfl
    · have hwrite : (if MAX_LENGTH ≤ c.1 then hist.set (MAX_LENGTH - 1) c.2
          else hist.set c.1 c.2).getD 39 0 = hist.getD 39 0 := by
        have h40 : ¬ MAX_LENGTH ≤ c.1 := by unfold MAX_LENGTH; omega
        rw [if_neg h40]
        exact getD_set_ne hist 39 c.1 c.2 (by omega)
      have hfilter : (c :: rest).filter (fun p => 39 ≤ p.1)
          = rest.filter (fun p => 39 ≤ p.1) := by
        simp [List.filter_cons, hc]
      rw [ih _ (by rw [apply_ite List.length, set_length_eq, set_length_eq, ite_self]; exact hlen)]
      rw [hfilter, hwrite]

/-- C10 (amended): in the joint-histogram `length` branch the last
bucket is *assigned*, not accumulated, once per processed value ≥ 40
— and also by the value 39, which shares bucket index 39 — so it ends
up equal to the count of the last-processed length value ≥ 39, not the
sum of the counts of the values ≥ 40. -/
theorem C10_last_bucket_assigned (counts : List (Nat × Nat))
    (h : counts.filter (fun p => 39 ≤ p.1) ≠ []) :
    (lengthHistogramAssign counts).getD 39 0
      = ((counts.filter (fun p => 39 ≤ p.1)).getLastD (0, 0)).2 := by
  unfold lengthHistogramAssign
  rw [lengthHistogramLoop_getD counts (List.replicate MAX_LENGTH 0) (by simp)]
  rw [if_neg h]

/-- C10 witness: a value-counts list with two distinct lengths ≥ 40. -/
theorem C10_last_bucket_assigned_witness :
    (([(41, 5), (40, 3)] : List (Nat × Nat)).filter (fun p => 39 ≤ p.1) ≠ [])
    ∧ (lengthHistogramAssign [(41, 5), (40, 3)]).getD 39 0
      = ((([(41, 5), (40, 3)] : List (Nat × Nat)).filter
          (fun p => 39 ≤ p.1)).getLastD (0, 0)).2 :=
  ⟨by decide, C10_last_bucket_assigned [(41, 5), (40, 3)] (by decide)⟩

/-- C10 counterexample to the claim as literally stated: on the
value-counts `[(41, 5), (40, 3), (39, 2)]` (descending by count, as
`value_counts()` yields) the two distinct lengths ≥ 40 are processed
first, but the later value 39 also assigns bucket 39, so the bucket
ends at 2 — neither the count 3 of the last-processed length ≥ 40 nor
the sum 8. -/
theorem C10_counterexample :
    (lengthHistogramAssign [(41, 5), (40, 3), (39, 2)]).getD 39 0 = 2
    ∧ (2 : Nat) ≠ 3 ∧ (2 : Nat) ≠ 5 + 3 := by
  refine ⟨by rfl, by decide, by decide⟩

theorem dedupLoop_balance (aps : List AttackPath) :
    ∀ (hs : List String) (s c : Nat),
      (aps.foldl dedupStep (hs, s, c)).1.length
          + (aps.foldl dedupStep (hs, s, c)).2.2 + s
        = hs.length + c + (aps.foldl dedupStep (hs, s, c)).2.1
      ∧ (aps.foldl dedupStep (hs, s, c)).2.2 + s
        ≤ c + (aps.foldl dedupStep (hs, s, c)).2.1 := by
  induction aps with
  | nil => intro hs s c; simp
  | cons ap rest ih =>
    intro hs s c
    by_cases hmem : ap.hash ∈ hs
    · have hstep : dedupStep (hs, s, c) ap = (hs, s + 1, c + 1) := by
        simp only [dedupStep]
        rw [if_pos hmem]
      rw [List.foldl_cons, hstep]
      have := ih hs (s + 1) (c + 1)
      exact ⟨by omega, by omega⟩
    · have hstep : dedupStep (hs, s, c) ap = (ap.hash :: hs, s + 1, c) := by
        simp only [dedupStep]
        rw [if_neg hmem]
      rw [List.foldl_cons, hstep]
      have := ih (ap.hash :: hs) (s + 1) c
      simp only [List.length_cons] at this
      exact ⟨by omega, by omega⟩

theorem dedupFold_balance (aps : List AttackPath) (hs : List String) :
    (dedupFold hs aps).1.length + (dedupFold hs aps).2.2
        = hs.length + (dedupFold hs aps).2.1
      ∧ (dedupFold hs aps).2.2 ≤ (dedupFold hs aps).2.1 := by
  have := dedupLoop_balance aps hs 0 0
  unfold dedupFold
  exact ⟨by omega, by omega⟩

theorem sampleStep_preserves (st : GenState) (aps : List AttackPath)
    (h : st.unique_hashes.length = st.generated.sum) :
    (sampleAttackPathsStep st aps).unique_hashes.length
      = (sampleAttackPathsStep st aps).generated.sum := by
  unfold sampleAttackPathsStep
  dsimp only
  have hb := dedupFold_balance aps st.unique_hashes
  rw [List.sum_append]
  simp only [List.sum_cons, List.sum_nil]
  omega

theorem bootstrapFold_growth :
    ∀ (aps : List AttackPath) (hs : List String),
      (aps.map AttackPath.hash).Nodup → (∀ ap ∈ aps, ap.hash ∉ hs) →
      (aps.foldl (fun hs ap => if ap.hash ∈ hs then hs else ap.hash :: hs)
        hs).length = hs.length + aps.length := by
  intro aps
  induction aps with
  | nil => intro hs _ _; simp
  | cons ap rest ih =>
    intro hs hnd hfresh
    rw [List.foldl_cons]
    rw [if_neg (hfresh ap (List.mem_cons_self _ _))]
    rw [List.map_cons, List.nodup_cons] at hnd
    have hfresh' : ∀ b ∈ rest, b.hash ∉ ap.hash :: hs := by
      intro b hb
      simp only [List.mem_cons, not_or]
      exact ⟨fun he => hnd.1 (he ▸ List.mem_map_of_mem AttackPath.hash hb),
             hfresh b (List.mem_cons_of_mem _ hb)⟩
    rw [ih (ap.hash :: hs) hnd.2 hfresh']
    simp
    omega

theorem addBootstrap_preserves (st : GenState) (aps : List AttackPath)
    (hnd : (aps.map AttackPath.hash).Nodup)
    (hfresh : ∀ ap ∈ aps, ap.hash ∉ st.unique_hashes)
    (h : st.unique_hashes.length = st.generated.sum) :
    (addBootstrap st aps).unique_hashes.length
      = (addBootstrap st aps).generated.sum := by
  unfold addBootstrap
  dsimp only
  rw [bootstrapFold_growth aps st.unique_hashes hnd hfresh,
      List.sum_append]
  simp [h]

/-- C4 (amended): `|unique_hashes| = Σ generated[i]` holds across any
sequence of `step` calls; an `add_bootstrap` call preserves it exactly
when its paths carry pairwise distinct hashes not yet in
`unique_hashes` (duplicated bootstrap traces break it, as the
counterexample shows). -/
theorem C4_dedup_invariant (st : GenState) (ops : List GenOp)
    (hinv : st.unique_hashes.length = st.generated.sum)
    (hops : goodOps st ops) :
    (applyOps st ops).unique_hashes.length = (applyOps st ops).generated.sum := by
  induction ops generalizing st with
  | nil => exact hinv
  | cons op rest ih =>
    cases op with
    | step aps =>
      exact ih (sampleAttackPathsStep st aps)
        (sampleStep_preserves st aps hinv) hops
    | bootstrap aps =>
      obtain ⟨hnd, hfresh, hrest⟩ := hops
      exact ih (addBootstrap st aps)
        (addBootstrap_preserves st aps hnd hfresh hinv) hrest

/-- C4 witness: one ordinary sampling step from the fresh state. -/
theorem C4_dedup_invariant_witness :
    (GenState.init.unique_hashes.length = GenState.init.generated.sum)
    ∧ goodOps GenState.init [GenOp.step [apC3]]
    ∧ (applyOps GenState.init [GenOp.step [apC3]]).unique_hashes.length
      = (applyOps GenState.init [GenOp.step [apC3]]).generated.sum :=
  ⟨rfl, trivial,
   C4_dedup_invariant GenState.init [GenOp.step [apC3]] rfl trivial⟩

/-- C4 counterexample: bootstrapping the same trace twice records
`generated = [2]` but only one unique hash, breaking the equality. -/
theorem C4_counterexample :
    (addBootstrap GenState.init [apC3, apC3]).generated.sum = 2
    ∧ (addBootstrap GenState.init [apC3, apC3]).unique_hashes.length = 1
    ∧ (addBootstrap GenState.init [apC3, apC3]).unique_hashes.length
      ≠ (addBootstrap GenState.init [apC3, apC3]).generated.sum := by
  have h1 : (addBootstrap GenState.init [apC3, apC3]).unique_hashes.length = 1 := by
    unfold addBootstrap GenState.init
    dsimp only [List.foldl]
    rw [if_neg (List.not_mem_nil _), if_pos (List.mem_cons_self _ _)]
    rfl
  have h2 : (addBootstrap GenState.init [apC3, apC3]).generated.sum = 2 := by rfl
  exact ⟨h2, h1, by rw [h1, h2]; decide⟩

/-- C8 counterexample: with `precision = [0.8, 0.2]` the code's trigger
`sum(last_five)/5 = 0.2 ≤ 0.2` fires and the classifier is retrained,
while the claimed mean over the existing iterations is `0.5 > 0.2`, so
per the claim it must not retrain. -/
theorem C8_counterexample :
    retrainTrigger [4/5, 1/5] = true
    ∧ (["CVE-A"] : List String).isEmpty = false
    ∧ stepRetrains [4/5, 1/5] ["CVE-A"] = true
    ∧ specRetrainTrigger [4/5, 1/5] = false := by
  have hlf : lastFivePrec [4/5, 1/5] = [(4 : ℚ)/5, 1/5] := rfl
  have h1 : retrainTrigger [4/5, 1/5] = true := by
    unfold retrainTrigger
    rw [hlf, decide_eq_true_eq]
    show ((4 : ℚ)/5 + (1/5 + 0)) / 5 ≤ 1/5
    norm_num
  refine ⟨h1, by rfl, ?_, ?_⟩
  · unfold stepRetrains
    rw [h1]
    rfl
  · unfold specRetrainTrigger
    rw [hlf, decide_eq_false_iff_not]
    show ¬ ((4 : ℚ)/5 + (1/5 + 0)) / (([(4 : ℚ)/5, 1/5]).length : ℚ) ≤ 1/5
    norm_num

/-- C8 (amended): with a non-empty steering-compliant set the
classifier is retrained exactly when the *sum of the last up-to-5
precision values divided by the constant 5* is at most the most recent
precision; the divisor is 5 even when fewer than 5 iterations exist
(when at least 5 exist this is the ordinary mean of the last 5). -/
theorem C8_retrain_condition (precision : List ℚ) (compliant : List String)
    (hne : compliant ≠ []) :
    (stepRetrains precision compliant = true ↔
      (lastFivePrec precision).sum / 5 ≤ precision.getLastD 0)
    ∧ (5 ≤ precision.length → (lastFivePrec precision).length = 5) := by
  constructor
  · have hemp : compliant.isEmpty = false := by
      cases compliant with
      | nil => exact absurd rfl hne
      | cons a as => rfl
    unfold stepRetrains retrainTrigger
    rw [hemp]
    simp
  · intro h5
    unfold lastFivePrec
    rw [List.length_drop]
    omega

/-- C8 witness: five equal precision values and a non-empty compliant
set. -/
theorem C8_retrain_condition_witness :
    ((["CVE-A"] : List String) ≠ [])
    ∧ ((stepRetrains [1/2, 1/2, 1/2, 1/2, 1/2] ["CVE-A"] = true ↔
        (lastFivePrec [1/2, 1/2, 1/2, 1/2, 1/2]).sum / 5
          ≤ ([1/2, 1/2, 1/2, 1/2, 1/2] : List ℚ).getLastD 0)
       ∧ (5 ≤ ([1/2, 1/2, 1/2, 1/2, 1/2] : List ℚ).length →
          (lastFivePrec [1/2, 1/2, 1/2, 1/2, 1/2]).length = 5)) :=
  ⟨by decide,
   C8_retrain_condition [1/2, 1/2, 1/2, 1/2, 1/2] ["CVE-A"] (by decide)⟩

/-- C9 witness: the behavior at a concrete model with a CVE-less host. -/
theorem C9_empty_cves_root_raises_witness :
    (modelC9.findHost 1).cves = []
    ∧ (modelC9.sampleCveOnHost 0 0 1 .guest none = .ok none
       ∧ modelC9.sampleCveOnHost 0 0 1 .user none = .ok none
       ∧ modelC9.sampleCveOnHost 0 0 1 .root none = .error .indexError) :=
  ⟨by rfl, C9_empty_cves_root_raises modelC9 0 0 1 (by rfl)⟩

end ProVEAN
